import Mathlib

/-!
Shallow embedding of the incremental Gmail synchronization and fan-out
forwarding server (Express application: content extraction, cursor store,
history sync engine, fan-out forwarder, push notification gateway).

JavaScript strings are modelled as Lean `String`; JavaScript `undefined`
for string-valued fields is modelled as `Option String` with `none`;
JavaScript truthiness of a string is emptiness testing.  Fallible
operations (HTTP posts, file system access) are modelled as `Except`
values supplied as explicit inputs, so that `try`/`catch` structure
becomes explicit case analysis.
-/

namespace Intern

/-- JavaScript regex whitespace class membership (the common members of
JS `\s`, also used by `String.prototype.trim`). -/
def isJsWs (c : Char) : Bool :=
  c = ' ' || c = '\t' || c = '\n' || c = '\r' ||
  c = Char.ofNat 11 || c = Char.ofNat 12 || c = Char.ofNat 160

/-- JavaScript `String.prototype.trim` on a character list. -/
def jsTrimList (l : List Char) : List Char :=
  ((l.dropWhile isJsWs).reverse.dropWhile isJsWs).reverse

/-- JavaScript `String.prototype.trim`. -/
def jsTrim (s : String) : String :=
  String.mk (jsTrimList s.data)

/-- JavaScript `a || b` for strings (empty string is falsy). -/
def jsOr (a b : String) : String :=
  if a = "" then b else a

/-- JavaScript `a || b` where `a` may be `undefined` (`none`) and an empty
string is falsy. -/
def jsOrOpt (a b : Option String) : Option String :=
  match a with
  | some s => if s = "" then b else a
  | none => b

/-- Value of one base64 alphabet character; `none` for padding and any
character outside the alphabet (which `Buffer.from(_, "base64")` skips). -/
def b64Val (c : Char) : Option Nat :=
  if 'A' ≤ c ∧ c ≤ 'Z' then some (c.toNat - 'A'.toNat)
  else if 'a' ≤ c ∧ c ≤ 'z' then some (c.toNat - 'a'.toNat + 26)
  else if '0' ≤ c ∧ c ≤ '9' then some (c.toNat - '0'.toNat + 52)
  else if c = '+' then some 62
  else if c = '/' then some 63
  else none

/-- Reassemble base64 sextet values into bytes (4 sextets yield 3 bytes; a
trailing group of 3 yields 2, of 2 yields 1, of 1 yields none). -/
def sextetsToBytes : List Nat → List Nat
  | a :: b :: c :: d :: rest =>
      (a * 4 + b / 16) :: ((b % 16) * 16 + c / 4) :: ((c % 4) * 64 + d) ::
        sextetsToBytes rest
  | [a, b, c] => [a * 4 + b / 16, (b % 16) * 16 + c / 4]
  | [a, b] => [a * 4 + b / 16]
  | _ => []

/-- Unicode replacement character, produced for ill-formed UTF-8. -/
def replChar : Char := Char.ofNat 0xFFFD

/-- Byte in the UTF-8 continuation range `0x80 ≤ b < 0xC0`. -/
def isCont (b : Nat) : Bool := 0x80 ≤ b && b < 0xC0

/-- UTF-8 decoding with replacement-character error handling, the
behaviour of `Buffer.prototype.toString("utf-8")`.  The fuel argument is
an upper bound on the number of bytes and only serves structural
termination; it is initialised to the byte count and never runs out
because every step consumes at least one byte. -/
def utf8Aux : Nat → List Nat → List Char
  | 0, _ => []
  | _, [] => []
  | fuel + 1, b1 :: rest =>
    if b1 < 0x80 then Char.ofNat b1 :: utf8Aux fuel rest
    else if b1 < 0xC2 then replChar :: utf8Aux fuel rest
    else if b1 < 0xE0 then
      match rest with
      | b2 :: rest2 =>
        if isCont b2 then
          Char.ofNat ((b1 - 0xC0) * 0x40 + (b2 - 0x80)) :: utf8Aux fuel rest2
        else replChar :: utf8Aux fuel rest
      | [] => [replChar]
    else if b1 < 0xF0 then
      match rest with
      | b2 :: b3 :: rest3 =>
        if isCont b2 && isCont b3 && !(b1 = 0xE0 && b2 < 0xA0) &&
            !(b1 = 0xED && 0xA0 ≤ b2) then
          Char.ofNat ((b1 - 0xE0) * 0x1000 + (b2 - 0x80) * 0x40 + (b3 - 0x80)) ::
            utf8Aux fuel rest3
        else replChar :: utf8Aux fuel rest
      | _ => replChar :: utf8Aux fuel rest
    else if b1 < 0xF5 then
      match rest with
      | b2 :: b3 :: b4 :: rest4 =>
        if isCont b2 && isCont b3 && isCont b4 && !(b1 = 0xF0 && b2 < 0x90) &&
            !(b1 = 0xF4 && 0x90 ≤ b2) then
          Char.ofNat ((b1 - 0xF0) * 0x40000 + (b2 - 0x80) * 0x1000 +
              (b3 - 0x80) * 0x40 + (b4 - 0x80)) :: utf8Aux fuel rest4
        else replChar :: utf8Aux fuel rest
      | _ => replChar :: utf8Aux fuel rest
    else replChar :: utf8Aux fuel rest

/-- UTF-8 decode a byte list. -/
def utf8DecodeBytes (bs : List Nat) : List Char :=
  utf8Aux bs.length bs

/-- Source `decodeBase64UrlToUtf8`: empty/absent data yields `""`;
otherwise map the URL alphabet (`-`, `_`) to the standard one and decode
`Buffer.from(base64, "base64").toString("utf-8")`. -/
def decodeBase64UrlToUtf8 (data : String) : String :=
  if data = "" then ""
  else
    let base64 := data.data.map fun c =>
      if c = '-' then '+' else if c = '_' then '/' else c
    String.mk (utf8DecodeBytes (sextetsToBytes (base64.filterMap b64Val)))

/-! ### A scanner for global regex replacement

`scanRep step l` walks `l` left to right; at each position `step` either
matches a non-empty prefix of the remaining input (returning the consumed
length and the replacement) or does not match, in which case one
character is emitted unchanged.  This is the semantics of
`String.prototype.replace` with a global regex whose matches are
non-empty.  Fuel equals the input length and never runs out. -/

def scanRepAux (step : List Char → Option (Nat × List Char)) :
    Nat → List Char → List Char
  | 0, _ => []
  | _, [] => []
  | fuel + 1, c :: cs =>
    match step (c :: cs) with
    | some (n, rep) => rep ++ scanRepAux step fuel (List.drop (n - 1) cs)
    | none => c :: scanRepAux step fuel cs

def scanRep (step : List Char → Option (Nat × List Char))
    (l : List Char) : List Char :=
  scanRepAux step l.length l

/-- Case-insensitive character comparison (regex `i` flag, ASCII). -/
def lcEq (a b : Char) : Bool := a.toLower = b.toLower

/-- Case-insensitive prefix test. -/
def startsWithCI : List Char → List Char → Bool
  | [], _ => true
  | _ :: _, [] => false
  | p :: ps, c :: cs => lcEq p c && startsWithCI ps cs

/-- Earliest index at which `pat` matches case-insensitively. -/
def findCI (pat : List Char) : List Char → Option Nat
  | [] => if pat.isEmpty then some 0 else none
  | c :: cs =>
    if startsWithCI pat (c :: cs) then some 0
    else (findCI pat cs).map (· + 1)

/-- Matcher for `open[\s\S]*?close` (lazy block, e.g. a style or script
element), removed entirely. -/
def blockStep (opn cls : List Char) (l : List Char) :
    Option (Nat × List Char) :=
  if startsWithCI opn l then
    match findCI cls (List.drop opn.length l) with
    | some k => some (opn.length + k + cls.length, [])
    | none => none
  else none

/-- Core of the `<br\s*\/?>` matchers: consumed length through `>`. -/
def brCore (l : List Char) : Option Nat :=
  if startsWithCI ['<', 'b', 'r'] l then
    let rest := List.drop 3 l
    let wsLen := (rest.takeWhile isJsWs).length
    match List.drop wsLen rest with
    | '/' :: '>' :: _ => some (3 + wsLen + 2)
    | '>' :: _ => some (3 + wsLen + 1)
    | _ => none
  else none

/-- Matcher for `<br\s*\/?>(?=\s*<)`, replaced by a newline. -/
def brLookStep (l : List Char) : Option (Nat × List Char) :=
  match brCore l with
  | some n =>
    match (List.drop n l).dropWhile isJsWs with
    | '<' :: _ => some (n, ['\n'])
    | _ => none
  | none => none

/-- Matcher for `<br\s*\/?>(?!\n)`, replaced by a newline. -/
def brNoNlStep (l : List Char) : Option (Nat × List Char) :=
  match brCore l with
  | some n =>
    match List.drop n l with
    | '\n' :: _ => none
    | _ => some (n, ['\n'])
  | none => none

/-- The closing tags of `<\/(p|div|h[1-6]|li)>`. -/
def closeTags : List (List Char) :=
  ["</p>", "</div>", "</h1>", "</h2>", "</h3>", "</h4>", "</h5>", "</h6>",
   "</li>"].map String.data

/-- Matcher replacing a block-level closing tag by a newline. -/
def closeTagStep (l : List Char) : Option (Nat × List Char) :=
  match closeTags.find? (fun t => startsWithCI t l) with
  | some t => some (t.length, ['\n'])
  | none => none

/-- Matcher for a case-insensitive literal, with a fixed replacement. -/
def litStep (pat rep : String) (l : List Char) : Option (Nat × List Char) :=
  if startsWithCI pat.data l then some (pat.data.length, rep.data) else none

/-- Matcher for `<[^>]+>`, replaced by a space. -/
def anyTagStep : List Char → Option (Nat × List Char)
  | '<' :: cs =>
    let body := cs.takeWhile (· ≠ '>')
    if body.length = 0 then none
    else if body.length < cs.length then some (body.length + 2, [' '])
    else none
  | _ => none

/-- Index of the last newline in a character list, if any. -/
def lastNlIdx (run : List Char) : Option Nat :=
  match run.reverse.findIdx? (· = '\n') with
  | some k => some (run.length - 1 - k)
  | none => none

/-- Matcher for `\s+\n` (greedy, so the match extends to the last newline
of the whitespace run and spans at least two characters), replaced by a
single newline. -/
def wsNlStep (l : List Char) : Option (Nat × List Char) :=
  let run := l.takeWhile isJsWs
  match lastNlIdx run with
  | some j => if 1 ≤ j then some (j + 1, ['\n']) else none
  | none => none

/-- Matcher for `\n{3,}`, replaced by a blank line. -/
def nl3Step (l : List Char) : Option (Nat × List Char) :=
  let k := (l.takeWhile (· = '\n')).length
  if 3 ≤ k then some (k, ['\n', '\n']) else none

/-- Matcher for `\s{2,}`, replaced by a single space. -/
def ws2Step (l : List Char) : Option (Nat × List Char) :=
  let k := (l.takeWhile isJsWs).length
  if 2 ≤ k then some (k, [' ']) else none

/-- Source `stripHtml`: the chain of global regex replacements degrading
HTML to readable text, followed by a trim. -/
def stripHtml (html : String) : String :=
  if html = "" then ""
  else
    let l := html.data
    let l := scanRep (blockStep "<style".data "</style>".data) l
    let l := scanRep (blockStep "<script".data "</script>".data) l
    let l := scanRep brLookStep l
    let l := scanRep brNoNlStep l
    let l := scanRep closeTagStep l
    let l := scanRep (litStep "<li>" " • ") l
    let l := scanRep anyTagStep l
    let l := scanRep (litStep "&nbsp;" " ") l
    let l := scanRep (litStep "&amp;" "&") l
    let l := scanRep (litStep "&lt;" "<") l
    let l := scanRep (litStep "&gt;" ">") l
    let l := scanRep (litStep "&#39;" "'") l
    let l := scanRep (litStep "&quot;" "\"") l
    let l := scanRep wsNlStep l
    let l := scanRep nl3Step l
    let l := scanRep ws2Step l
    String.mk (jsTrimList l)

/-! ### Content extractor (`extractEmailBodies`) -/

/-- One node of the multipart message payload tree: a media type, an
optional inline body (`body.data`), and child parts. -/
inductive MsgPart : Type where
  | mk (mimeType : String) (data : Option String) (parts : List MsgPart)

def MsgPart.mimeType : MsgPart → String
  | .mk m _ _ => m

def MsgPart.data : MsgPart → Option String
  | .mk _ d _ => d

def MsgPart.parts : MsgPart → List MsgPart
  | .mk _ _ ps => ps

/-- JavaScript truthiness of `part.body?.data`. -/
def dataTruthy (d : Option String) : Bool :=
  match d with
  | some s => s ≠ ""
  | none => false

/-- The decoded inline body of a part (empty when absent). -/
def decodedData (p : MsgPart) : String :=
  decodeBase64UrlToUtf8 (p.data.getD "")

mutual

/-- Source `walk` inside `extractEmailBodies`: visit a node (first-wins
assignment of the plain-text and HTML bodies), then the children in
order.  The running state is the pair `(text, html)`. -/
def walk : MsgPart → String × String → String × String
  | MsgPart.mk mt d ps, s =>
    let t := if mt = "text/plain" && dataTruthy d && s.1 = "" then
        decodeBase64UrlToUtf8 (d.getD "") else s.1
    let h := if mt = "text/html" && dataTruthy d && s.2 = "" then
        decodeBase64UrlToUtf8 (d.getD "") else s.2
    walkList ps (t, h)

/-- Source `part.parts.forEach(walk)`. -/
def walkList : List MsgPart → String × String → String × String
  | [], s => s
  | q :: qs, s => walkList qs (walk q s)

end

mutual

/-- Depth-first preorder enumeration of a payload tree, the order in
which `walk` visits nodes. -/
def dfs : MsgPart → List MsgPart
  | MsgPart.mk mt d ps => MsgPart.mk mt d ps :: dfsList ps

def dfsList : List MsgPart → List MsgPart
  | [] => []
  | q :: qs => dfs q ++ dfsList qs

end

/-- A node that the walk can take a plain-text body from. -/
def isTextPart (p : MsgPart) : Bool :=
  p.mimeType = "text/plain" && dataTruthy p.data

/-- A node that the walk can take an HTML body from. -/
def isHtmlPart (p : MsgPart) : Bool :=
  p.mimeType = "text/html" && dataTruthy p.data

/-- A node the first-wins walk actually takes its plain-text body from:
a plain-text part with truthy inline data whose decoding is non-empty
(a part decoding to the empty string leaves `text` falsy, so the walk
moves on). -/
def winsText (p : MsgPart) : Bool :=
  isTextPart p && decodedData p ≠ ""

/-- A node the first-wins walk actually takes its HTML body from. -/
def winsHtml (p : MsgPart) : Bool :=
  isHtmlPart p && decodedData p ≠ ""

/-- Source `extractEmailBodies`: top-level inline data is taken first
(as plain text when no media type matches), then the tree is walked
depth-first and both results are trimmed. -/
def extractEmailBodies (payload : MsgPart) : String × String :=
  let s0 :=
    if dataTruthy payload.data then
      let decoded := decodeBase64UrlToUtf8 (payload.data.getD "")
      if payload.mimeType = "text/plain" then (decoded, "")
      else if payload.mimeType = "text/html" then ("", decoded)
      else (decoded, "")
    else ("", "")
  let s := walk payload s0
  (jsTrim s.1, jsTrim s.2)

/-! ### Cursor store (`loadState` / `saveState`) -/

/-- The persisted state record: a flat string-keyed object. -/
abbrev CursorState := List (String × String)

/-- First-match lookup of a key, JavaScript property access. -/
def lookupKey : CursorState → String → Option String
  | [], _ => none
  | (k', v) :: rest, k => if k' = k then some v else lookupKey rest k

/-- JavaScript property assignment `obj[k] = v` on the record model:
overwrite in place, or append when the key is new. -/
def setKey : CursorState → String → String → CursorState
  | [], k, v => [(k, v)]
  | (k', v') :: rest, k, v =>
    if k' = k then (k, v) :: rest else (k', v') :: setKey rest k v

/-- Source `loadState`: the whole read-and-parse of the backing file runs
inside `try`, and any failure (file absent, unreadable, corrupt JSON —
modelled as the `Except.error` case of the supplied read result) yields
the empty object. -/
def loadState (readResult : Except String CursorState) : CursorState :=
  match readResult with
  | Except.ok st => st
  | Except.error _ => []

/-- Source `saveState`: the write runs inside `try` and any write failure
is logged and swallowed, so the caller always observes a normal return
(`Except.ok`). -/
def saveState (writeResult : Except String Unit) : Except String Unit :=
  match writeResult with
  | Except.ok _ => Except.ok ()
  | Except.error _ => Except.ok ()

/-! ### Fan-out forwarder (`forwardMessageById` and its sinks) -/

/-- One Gmail header, whose value may be absent. -/
structure Header where
  name : String
  value : Option String

/-- Source `headers.find(h => h.name === n)?.value`. -/
def headerVal (headers : List Header) (n : String) : Option String :=
  (headers.find? (fun h => h.name = n)).bind Header.value

/-- The forward-ready representation built by `forwardMessageById`
(`undefined`-valued fields are `none`). -/
structure EmailData where
  fromAddr : Option String
  toAddr : Option String
  subject : Option String
  body : String
  textBody : Option String
  htmlBody : Option String
  deriving DecidableEq

/-- The backward-compatible `body` field: text if present, else stripped
HTML when an HTML body exists, else the sentinel. -/
def bodyField (text html : String) : String :=
  jsOr text (if html ≠ "" then stripHtml html else "(no text found)")

/-- The `emailData` object assembled by `forwardMessageById` from the
fetched payload and headers. -/
def mkEmailData (payload : MsgPart) (headers : List Header) : EmailData :=
  let e := extractEmailBodies payload
  { fromAddr := headerVal headers "From"
    toAddr := jsOrOpt (headerVal headers "To") (headerVal headers "Delivered-To")
    subject := headerVal headers "Subject"
    body := bodyField e.1 e.2
    textBody := if e.1 = "" then none else some e.1
    htmlBody := if e.2 = "" then none else some e.2 }

/-- Source `buildEmailPrompt`. -/
def buildEmailPrompt (d : EmailData) : String :=
  let f := (jsOrOpt d.fromAddr (some "")).getD ""
  let t := (jsOrOpt d.toAddr (some "")).getD ""
  let s := (jsOrOpt d.subject (some "")).getD ""
  let b := (jsOrOpt d.textBody (some (jsOr d.body ""))).getD ""
  jsTrim ("From: " ++ f ++ "\nTo: " ++ t ++ "\nSubject: " ++ s ++ "\n\n" ++ b)

/-- Source `sseBroadcast`: every attached subscriber is written to inside
its own `try`/`catch`, so each write is attempted and a failing
subscriber affects nothing.  The input models each subscriber's write
outcome; the output records which writes succeeded. -/
def sseBroadcast (subscribers : List (Except String Unit)) : List Bool :=
  subscribers.map Except.isOk

/-- Configuration and sink outcomes for one `forwardMessageById` run:
which optional sinks are configured and how each delivery attempt would
end. -/
structure ForwardDeps where
  ngrokEndpoint : Option String
  outboundPostUrl : Option String
  subscribers : List (Except String Unit)
  webhookResult : Except String Unit
  containerCreateResult : Except String Unit
  containerQueryResult : Except String Unit

/-- Source `postEmailToContainerAPI`: nothing happens without a
configured base URL; otherwise the session is ensured (all failures
swallowed, conflict treated as success) and the query is posted with the
built prompt inside `try`/`catch`.  The result is the prompt that was
posted, and the function never propagates an error. -/
def postEmailToContainerAPI (deps : ForwardDeps) (email : EmailData) :
    Option String :=
  match deps.outboundPostUrl with
  | none => none
  | some _ => some (buildEmailPrompt email)

/-- Observable outcome of one `forwardMessageById` run. -/
structure ForwardResult where
  result : Except String EmailData
  broadcastWrites : List Bool
  webhookPosted : Bool
  containerPosted : Option String

/-- Source `forwardMessageById`, from the point where the message has
been fetched: build `emailData`, broadcast it (inside `try`), post it to
the legacy webhook when configured (NOT inside `try`: a failure is
thrown to the caller and ends the run), then hand it to the container
API sink. -/
def forwardMessageById (deps : ForwardDeps) (payload : MsgPart)
    (headers : List Header) : ForwardResult :=
  let email := mkEmailData payload headers
  let writes := sseBroadcast deps.subscribers
  match deps.ngrokEndpoint with
  | some _ =>
    match deps.webhookResult with
    | Except.error e =>
      { result := Except.error e
        broadcastWrites := writes
        webhookPosted := false
        containerPosted := none }
    | Except.ok _ =>
      { result := Except.ok email
        broadcastWrites := writes
        webhookPosted := true
        containerPosted := postEmailToContainerAPI deps email }
  | none =>
    { result := Except.ok email
      broadcastWrites := writes
      webhookPosted := false
      containerPosted := postEmailToContainerAPI deps email }

/-! ### History sync engine (`processHistorySince`) -/

/-- One change event of a history page: `h.id` and the message
identifiers of its `messagesAdded` sub-events (absent values model
non-truthy `m?.message?.id`). -/
structure HistoryRec where
  id : Option String
  messagesAdded : List (Option String)

/-- Source `latestHistoryId = h.id || latestHistoryId`. -/
def stepLatest (acc : String) (h : HistoryRec) : String :=
  match h.id with
  | some i => if i = "" then acc else i
  | none => acc

/-- Source `if (m?.message?.id) added.add(m.message.id)`: insertion-order
set semantics on a duplicate-free list. -/
def addMsg (l : List String) (m : Option String) : List String :=
  match m with
  | some mid => if mid = "" then l else if mid ∈ l then l else l ++ [mid]
  | none => l

/-- Fold of one change event into the `(latestHistoryId, added)` pair. -/
def foldRec (acc : String × List String) (h : HistoryRec) :
    String × List String :=
  (stepLatest acc.1 h, h.messagesAdded.foldl addMsg acc.2)

/-- What one sync pass returns and does. -/
structure SyncResult where
  count : Nat
  latestHistoryId : String
  newState : CursorState
  forwards : List (String × Bool)

/-- Source `processHistorySince`: page through the change log (the page
list models the successive `history.list` responses of the do/while
loop), folding every event into the latest-position tracker and the
pending set; then forward every pending identifier, each inside its own
`try`/`catch` (the oracle `fwd` gives each forward's outcome, recorded
but never propagated); finally, when a latest position is established
(truthy), read the state, overwrite its `historyId` and save.  `st` is
the state the `loadState()` call at save time returns. -/
def processHistorySince (startHistoryId : String)
    (pages : List (List HistoryRec)) (st : CursorState)
    (fwd : String → Except String Unit) : SyncResult :=
  let acc := pages.foldl (fun a page => page.foldl foldRec a)
    (startHistoryId, [])
  let latestHistoryId := acc.1
  let added := acc.2
  let forwards := added.map (fun i => (i, (fwd i).isOk))
  let newState :=
    if latestHistoryId = "" then st else setKey st "historyId" latestHistoryId
  { count := added.length
    latestHistoryId := latestHistoryId
    newState := newState
    forwards := forwards }

/-! ### Push notification gateway (`/gmail/push`, `/gmail-notify`) -/

/-- Numeric value of a string-typed change-log position (decimal). -/
def posVal (s : String) : Nat :=
  s.data.foldl (fun n c => 10 * n + (c.toNat - 48)) 0

/-- Source push handlers, after the envelope has been decoded to a
position hint: a falsy hint is discarded; otherwise the sync engine is
started from `state.historyId || hint`.  The result is the start
position handed to `processHistorySince` (`none` when the notification
is discarded). -/
def pushStart (st : CursorState) (hint : String) : Option String :=
  if hint = "" then none
  else
    some (match lookupKey st "historyId" with
          | some s => if s = "" then hint else s
          | none => hint)

/-! ### Observation functions over change-log pages -/

/-- The truthy change-event identifier of a history record, if any. -/
def recId (h : HistoryRec) : Option String :=
  match h.id with
  | some i => if i = "" then none else some i
  | none => none

/-- All truthy change-event identifiers of the pages, in encounter
order. -/
def recIds (pages : List (List HistoryRec)) : List String :=
  pages.flatten.filterMap recId

/-- A truthy added-message identifier. -/
def msgId (m : Option String) : Option String :=
  match m with
  | some s => if s = "" then none else some s
  | none => none

/-- All truthy added-message identifiers referenced by the pages, with
multiplicity, in encounter order. -/
def refMsgIds (pages : List (List HistoryRec)) : List String :=
  pages.flatten.flatMap (fun h => h.messagesAdded.filterMap msgId)

/-- Insertion-order set insertion on a duplicate-free list, the effect
of `Set.prototype.add` for a truthy identifier. -/
def add1 (l : List String) (mid : String) : List String :=
  if mid ∈ l then l else l ++ [mid]

/-- Overwriting fold: the value a `x = y || x` accumulation loop holds
after consuming `l`, i.e. the last element of `l`, or `s` when `l` is
empty. -/
def lastOr (l : List String) (s : String) : String :=
  l.foldl (fun _ i => i) s

/-- The pending identifier set accumulated by a sync pass. -/
def pendingIds (startHistoryId : String)
    (pages : List (List HistoryRec)) : List String :=
  (pages.foldl (fun a page => page.foldl foldRec a) (startHistoryId, [])).2

/-! ### Sequences of sync passes -/

/-- One sync pass of a sequence: the start position, the change-log
pages the remote returns for it, and the per-message forwarding
outcomes. -/
structure SyncPass where
  start : String
  pages : List (List HistoryRec)
  fwd : String → Except String Unit

/-- Run a sequence of sync passes, each one reading the state the
previous pass left behind. -/
def runPasses (st : CursorState) : List SyncPass → CursorState
  | [] => st
  | p :: rest =>
    runPasses (processHistorySince p.start p.pages st p.fwd).newState rest

/-- Remote-contract hypotheses for one pass: it starts at or after the
currently persisted cursor, and the change log only returns event
identifiers at or after the start position. -/
def passOk (st : CursorState) (p : SyncPass) : Prop :=
  (match lookupKey st "historyId" with
   | some c => posVal c ≤ posVal p.start
   | none => True) ∧
  ∀ i ∈ recIds p.pages, posVal p.start ≤ posVal i

/-- Every pass of a sequence satisfies the remote contract relative to
the state it actually runs in. -/
def passesOk (st : CursorState) : List SyncPass → Prop
  | [] => True
  | p :: rest =>
    passOk st p ∧
    passesOk (processHistorySince p.start p.pages st p.fwd).newState rest

/-- The cursor persisted in `st'` is numerically at least the one
persisted in `st`, whenever `st` persists one. -/
def cursorLe (st st' : CursorState) : Prop :=
  ∀ c, lookupKey st "historyId" = some c →
    ∃ c', lookupKey st' "historyId" = some c' ∧ posVal c ≤ posVal c'

def c3wPass1 : SyncPass :=
  ⟨"7", [[⟨some "8", [some "m1"]⟩]], fun _ => Except.error "boom"⟩

def c3wPass2 : SyncPass :=
  ⟨"8", [[⟨some "9", []⟩]], fun _ => Except.ok ()⟩

def c5Fwd : String → Except String Unit :=
  fun i => if i = "m1" then Except.error "boom" else Except.ok ()

def c1Deps : ForwardDeps :=
  { ngrokEndpoint := some "https://relay.example"
    outboundPostUrl := some "https://agent.example"
    subscribers := []
    webhookResult := Except.error "boom"
    containerCreateResult := Except.ok ()
    containerQueryResult := Except.ok () }

def c1wDeps : ForwardDeps :=
  { ngrokEndpoint := none
    outboundPostUrl := some "https://agent.example"
    subscribers := [Except.error "gone", Except.ok ()]
    webhookResult := Except.ok ()
    containerCreateResult := Except.error "409"
    containerQueryResult := Except.error "502" }

def hiPayload : MsgPart := MsgPart.mk "text/html" (some "PHA+SGk8L3A+") []

/-- The text-component effect of visiting one node. -/
def stepText (t : String) (p : MsgPart) : String :=
  if isTextPart p && t = "" then decodedData p else t

/-- The html-component effect of visiting one node. -/
def stepHtml (h : String) (p : MsgPart) : String :=
  if isHtmlPart p && h = "" then decodedData p else h

def c7wTree : MsgPart :=
  MsgPart.mk "multipart/mixed" none
    [MsgPart.mk "text/plain" (some "====") [],
     MsgPart.mk "text/html" (some "====") [],
     MsgPart.mk "multipart/alternative" none
      [MsgPart.mk "text/plain" (some "Zmlyc3Q=") [],
       MsgPart.mk "text/html" (some "SDE=") []],
     MsgPart.mk "text/plain" (some "U2Vjb25k") [],
     MsgPart.mk "text/html" (some "SDI=") []]

/-! ### Association list lemmas for the cursor store -/

theorem lookupKey_setKey_self (st : CursorState) (k v : String) :
    lookupKey (setKey st k v) k = some v := by
  induction st with
  | nil => simp [setKey, lookupKey]
  | cons kv rest ih =>
    obtain ⟨k', v'⟩ := kv
    by_cases h : k' = k
    · simp [setKey, h, lookupKey]
    · simp [setKey, h, lookupKey, ih]

theorem lookupKey_setKey_other (st : CursorState) (k v k0 : String)
    (h : k0 ≠ k) :
    lookupKey (setKey st k v) k0 = lookupKey st k0 := by
  have hk0 : ¬(k = k0) := fun hh => h hh.symm
  induction st with
  | nil => simp [setKey, lookupKey, hk0]
  | cons kv rest ih =>
    obtain ⟨k', v'⟩ := kv
    by_cases hk : k' = k
    · subst hk
      simp [setKey, lookupKey, hk0]
    · simp [setKey, hk, lookupKey, ih]

/-! ### Fold separation lemmas for the sync pass accumulator -/

theorem foldRec_fst (a : String × List String) (h : HistoryRec) :
    (foldRec a h).1 = stepLatest a.1 h := rfl

theorem foldRec_snd (a : String × List String) (h : HistoryRec) :
    (foldRec a h).2 = h.messagesAdded.foldl addMsg a.2 := rfl

theorem foldl_foldRec_fst (page : List HistoryRec)
    (a : String × List String) :
    (page.foldl foldRec a).1 = page.foldl stepLatest a.1 := by
  induction page generalizing a with
  | nil => rfl
  | cons h t ih => simp [List.foldl_cons, ih, foldRec_fst]

theorem foldl_foldRec_snd (page : List HistoryRec)
    (a : String × List String) :
    (page.foldl foldRec a).2 =
      page.foldl (fun l h => h.messagesAdded.foldl addMsg l) a.2 := by
  induction page generalizing a with
  | nil => rfl
  | cons h t ih => simp [List.foldl_cons, ih, foldRec_snd]

theorem pagesFold_fst (pages : List (List HistoryRec))
    (a : String × List String) :
    (pages.foldl (fun a page => page.foldl foldRec a) a).1 =
      pages.foldl (fun s page => page.foldl stepLatest s) a.1 := by
  induction pages generalizing a with
  | nil => rfl
  | cons p t ih => simp [List.foldl_cons, ih, foldl_foldRec_fst]

theorem pagesFold_snd (pages : List (List HistoryRec))
    (a : String × List String) :
    (pages.foldl (fun a page => page.foldl foldRec a) a).2 =
      pages.foldl
        (fun l page =>
          page.foldl (fun l h => h.messagesAdded.foldl addMsg l) l) a.2 := by
  induction pages generalizing a with
  | nil => rfl
  | cons p t ih => simp [List.foldl_cons, ih, foldl_foldRec_snd]

theorem stepLatest_eq (s : String) (h : HistoryRec) :
    stepLatest s h = (recId h).getD s := by
  cases hid : h.id with
  | none => simp [stepLatest, recId, hid]
  | some i =>
    by_cases hi : i = "" <;> simp [stepLatest, recId, hid, hi]

theorem foldl_stepLatest_eq (recs : List HistoryRec) (s : String) :
    recs.foldl stepLatest s = lastOr (recs.filterMap recId) s := by
  induction recs generalizing s with
  | nil => rfl
  | cons h t ih =>
    cases hid : recId h with
    | none =>
      simp [List.foldl_cons, List.filterMap_cons, hid, ih, stepLatest_eq]
    | some i =>
      simp [List.foldl_cons, List.filterMap_cons, hid, ih, stepLatest_eq,
        lastOr]

theorem addMsg_eq (l : List String) (m : Option String) :
    addMsg l m = match msgId m with
      | some mid => add1 l mid
      | none => l := by
  cases m with
  | none => simp [addMsg, msgId]
  | some s =>
    by_cases hs : s = "" <;> simp [addMsg, msgId, hs, add1]

theorem foldl_addMsg_eq (ms : List (Option String)) (l : List String) :
    ms.foldl addMsg l = (ms.filterMap msgId).foldl add1 l := by
  induction ms generalizing l with
  | nil => rfl
  | cons m t ih =>
    cases hm : msgId m with
    | none => simp [List.foldl_cons, List.filterMap_cons, hm, ih, addMsg_eq]
    | some mid =>
      simp [List.foldl_cons, List.filterMap_cons, hm, ih, addMsg_eq]

/-! ### Lemmas about the overwriting fold (latest position tracking) -/

theorem lastOr_nil (s : String) : lastOr [] s = s := rfl

theorem lastOr_concat (l : List String) (i s : String) :
    lastOr (l ++ [i]) s = i := by
  simp [lastOr, List.foldl_concat]

theorem lastOr_eq_getLast (l : List String) (s : String) :
    lastOr l s = (l.getLast?).getD s := by
  induction l using List.reverseRecOn with
  | nil => rfl
  | append_singleton l i _ =>
    rw [lastOr_concat]
    simp

theorem lastOr_mem (l : List String) (s : String) :
    lastOr l s = s ∨ lastOr l s ∈ l := by
  induction l using List.reverseRecOn with
  | nil => left; rfl
  | append_singleton l i _ =>
    right
    rw [lastOr_concat]
    simp

theorem lastOr_mem_of_ne_nil (l : List String) (s : String) (h : l ≠ []) :
    lastOr l s ∈ l := by
  induction l using List.reverseRecOn with
  | nil => exact absurd rfl h
  | append_singleton l i _ =>
    rw [lastOr_concat]
    simp

theorem lastOr_ge_of_sorted (l : List String) (s : String)
    (hs : l.Pairwise (fun a b => posVal a ≤ posVal b)) :
    ∀ i ∈ l, posVal i ≤ posVal (lastOr l s) := by
  induction l using List.reverseRecOn with
  | nil => intro i hi; simp at hi
  | append_singleton l x _ =>
    intro i hi
    rw [lastOr_concat]
    rw [List.pairwise_append] at hs
    rcases List.mem_append.mp hi with hil | hix
    · exact hs.2.2 i hil x (by simp)
    · simp at hix
      simp [hix]

/-! ### Lemmas about insertion-order set accumulation -/

theorem add1_nodup (l : List String) (mid : String) (h : l.Nodup) :
    (add1 l mid).Nodup := by
  unfold add1
  split
  · exact h
  · next hmem => simp [List.nodup_append, h, hmem]

theorem mem_add1 (l : List String) (mid a : String) :
    a ∈ add1 l mid ↔ a ∈ l ∨ a = mid := by
  unfold add1
  split
  · next hmem =>
    constructor
    · exact Or.inl
    · rintro (h | rfl)
      · exact h
      · exact hmem
  · simp

theorem foldl_add1_nodup (ids l : List String) (h : l.Nodup) :
    (ids.foldl add1 l).Nodup := by
  induction ids generalizing l with
  | nil => exact h
  | cons i t ih => exact ih _ (add1_nodup _ _ h)

theorem mem_foldl_add1 (ids l : List String) (a : String) :
    a ∈ ids.foldl add1 l ↔ a ∈ l ∨ a ∈ ids := by
  induction ids generalizing l with
  | nil => simp
  | cons i t ih =>
    rw [List.foldl_cons, ih, mem_add1]
    simp only [List.mem_cons]
    tauto

/-! ### Characterisation of one sync pass -/

theorem latest_eq_lastOr (startHistoryId : String)
    (pages : List (List HistoryRec)) (st : CursorState)
    (fwd : String → Except String Unit) :
    (processHistorySince startHistoryId pages st fwd).latestHistoryId =
      lastOr (recIds pages) startHistoryId := by
  show (pages.foldl (fun a page => page.foldl foldRec a)
      (startHistoryId, [])).1 = _
  rw [pagesFold_fst]
  have hflat : pages.foldl (fun s page => page.foldl stepLatest s)
      startHistoryId = pages.flatten.foldl stepLatest startHistoryId :=
    (List.foldl_flatten _ _ _).symm
  rw [hflat, foldl_stepLatest_eq]
  rfl

theorem foldl_addMsg_recs (recs : List HistoryRec) (l : List String) :
    recs.foldl (fun l h => h.messagesAdded.foldl addMsg l) l =
      (recs.flatMap fun h => h.messagesAdded.filterMap msgId).foldl add1 l := by
  induction recs generalizing l with
  | nil => rfl
  | cons h t ih =>
    rw [List.foldl_cons, List.flatMap_cons, List.foldl_append, ih,
      foldl_addMsg_eq]

theorem pendingIds_eq_foldl_add1 (startHistoryId : String)
    (pages : List (List HistoryRec)) :
    pendingIds startHistoryId pages = (refMsgIds pages).foldl add1 [] := by
  unfold pendingIds
  rw [pagesFold_snd]
  have hflat : pages.foldl
      (fun l page =>
        page.foldl (fun l h => h.messagesAdded.foldl addMsg l) l) [] =
      pages.flatten.foldl (fun l h => h.messagesAdded.foldl addMsg l) [] :=
    (List.foldl_flatten _ _ _).symm
  rw [hflat, foldl_addMsg_recs]
  rfl

theorem forwards_map_fst (startHistoryId : String)
    (pages : List (List HistoryRec)) (st : CursorState)
    (fwd : String → Except String Unit) :
    (processHistorySince startHistoryId pages st fwd).forwards.map
        Prod.fst = pendingIds startHistoryId pages := by
  show ((pendingIds startHistoryId pages).map
      (fun i => (i, (fwd i).isOk))).map Prod.fst =
    pendingIds startHistoryId pages
  rw [List.map_map]
  exact List.map_id' _

theorem newState_eq (startHistoryId : String)
    (pages : List (List HistoryRec)) (st : CursorState)
    (fwd : String → Except String Unit) :
    (processHistorySince startHistoryId pages st fwd).newState =
      if (processHistorySince startHistoryId pages st fwd).latestHistoryId
          = "" then st
      else setKey st "historyId"
        (processHistorySince startHistoryId pages st fwd).latestHistoryId :=
  rfl

theorem cursorLe_refl (st : CursorState) : cursorLe st st :=
  fun c hc => ⟨c, hc, le_refl _⟩

theorem cursorLe_trans {s1 s2 s3 : CursorState}
    (h12 : cursorLe s1 s2) (h23 : cursorLe s2 s3) : cursorLe s1 s3 := by
  intro c hc
  obtain ⟨c2, hc2, h1⟩ := h12 c hc
  obtain ⟨c3, hc3, h2⟩ := h23 c2 hc2
  exact ⟨c3, hc3, le_trans h1 h2⟩

theorem pass_mono (st : CursorState) (p : SyncPass) (h : passOk st p) :
    cursorLe st (processHistorySince p.start p.pages st p.fwd).newState := by
  intro c hc
  rw [newState_eq]
  by_cases hl :
      (processHistorySince p.start p.pages st p.fwd).latestHistoryId = ""
  · rw [if_pos hl]
    exact ⟨c, hc, le_refl _⟩
  · rw [if_neg hl]
    refine ⟨_, lookupKey_setKey_self st _ _, ?_⟩
    have hcs : posVal c ≤ posVal p.start := by
      have h1 := h.1
      simp only [hc] at h1
      exact h1
    have hlast := latest_eq_lastOr p.start p.pages st p.fwd
    rcases lastOr_mem (recIds p.pages) p.start with he | hm
    · rw [hlast, he]
      exact hcs
    · rw [hlast]
      exact le_trans hcs (h.2 _ hm)

/-! ### Claim theorems for the sync engine, cursor store and gateway -/

/-- C3 (counterexample): the persisted cursor is NOT non-decreasing for
arbitrary change-log responses.  Starting from an empty state, a first
pass persists "10"; a second pass started at "10" whose (arbitrary)
response carries the event identifier "3" persists "3", which is
numerically smaller. -/
theorem c3_counterexample :
    lookupKey (processHistorySince "10" [[⟨some "10", []⟩]] []
        (fun _ => Except.ok ())).newState "historyId" = some "10"
    ∧ lookupKey (processHistorySince "10" [[⟨some "3", []⟩]]
        (processHistorySince "10" [[⟨some "10", []⟩]] []
          (fun _ => Except.ok ())).newState
        (fun _ => Except.ok ())).newState "historyId" = some "3"
    ∧ posVal "3" < posVal "10" := by
  refine ⟨by decide, by decide, by decide⟩

/-- C3 (amended): over any sequence of sync passes in which every pass
starts at or after the currently persisted cursor and the change log
only returns event identifiers at or after the pass's start position
(the remote contract), the persisted cursor value is monotonically
non-decreasing under numeric comparison. -/
theorem c3_cursor_monotone (ps : List SyncPass) (st : CursorState)
    (h : passesOk st ps) : cursorLe st (runPasses st ps) := by
  induction ps generalizing st with
  | nil => exact cursorLe_refl st
  | cons p rest ih => exact cursorLe_trans (pass_mono st p h.1) (ih _ h.2)

theorem c3_witness :
    ∃ c', lookupKey (runPasses [("historyId", "5")] [c3wPass1, c3wPass2])
        "historyId" = some c' ∧ posVal "5" ≤ posVal c' :=
  c3_cursor_monotone [c3wPass1, c3wPass2] [("historyId", "5")]
    ⟨⟨show posVal "5" ≤ posVal c3wPass1.start by decide, by decide⟩,
      ⟨show posVal "8" ≤ posVal c3wPass2.start by decide, by decide⟩,
      trivial⟩
    "5" (by decide)

/-- C4 (counterexample): `latestPosition` is NOT the highest change-event
identifier of an arbitrary response: with events "5" then "3" the code
keeps the last one, "3", though "5" is higher. -/
theorem c4_counterexample :
    "5" ∈ recIds [[⟨some "5", []⟩, ⟨some "3", []⟩]]
    ∧ (processHistorySince "1" [[⟨some "5", []⟩, ⟨some "3", []⟩]] []
        (fun _ => Except.ok ())).latestHistoryId = "3"
    ∧ posVal (processHistorySince "1" [[⟨some "5", []⟩, ⟨some "3", []⟩]] []
        (fun _ => Except.ok ())).latestHistoryId < posVal "5" := by
  refine ⟨by decide, by decide, by decide⟩

/-- C4 (amended): `latestPosition` is exactly the LAST truthy
change-event identifier in encounter order across all pages, falling
back to the startPosition when the change log returned no truthy
events; hence it is one of the returned identifiers whenever any exist,
and whenever the identifiers appear in numerically non-decreasing
encounter order (as the remote change log guarantees) it is the highest
identifier occurring in any page. -/
theorem c4_latest_position (startHistoryId : String)
    (pages : List (List HistoryRec)) (st : CursorState)
    (fwd : String → Except String Unit) :
    ((processHistorySince startHistoryId pages st fwd).latestHistoryId =
      ((recIds pages).getLast?).getD startHistoryId)
    ∧ (recIds pages = [] →
      (processHistorySince startHistoryId pages st fwd).latestHistoryId =
        startHistoryId)
    ∧ (recIds pages ≠ [] →
      (processHistorySince startHistoryId pages st fwd).latestHistoryId ∈
        recIds pages)
    ∧ ((recIds pages).Pairwise (fun a b => posVal a ≤ posVal b) →
      ∀ i ∈ recIds pages, posVal i ≤
        posVal (processHistorySince startHistoryId pages st fwd).latestHistoryId) := by
  have hl := latest_eq_lastOr startHistoryId pages st fwd
  rw [hl]
  refine ⟨lastOr_eq_getLast _ _, ?_, ?_, ?_⟩
  · intro h
    rw [h]
    rfl
  · exact lastOr_mem_of_ne_nil _ _
  · exact lastOr_ge_of_sorted _ _

theorem c4_witness :
    (processHistorySince "2" ([] : List (List HistoryRec)) []
        (fun _ => Except.ok ())).latestHistoryId = "2"
    ∧ (processHistorySince "1" [[⟨some "4", []⟩, ⟨some "6", []⟩],
        [⟨some "9", []⟩]] [] (fun _ => Except.ok ())).latestHistoryId = "9"
    ∧ posVal "4" ≤ posVal (processHistorySince "1"
        [[⟨some "4", []⟩, ⟨some "6", []⟩], [⟨some "9", []⟩]] []
        (fun _ => Except.ok ())).latestHistoryId := by
  refine ⟨(c4_latest_position "2" [] [] _).2.1 rfl, ?_,
    (c4_latest_position "1" [[⟨some "4", []⟩, ⟨some "6", []⟩],
      [⟨some "9", []⟩]] [] _).2.2.2 (by decide) "4" (by decide)⟩
  rw [(c4_latest_position "1" [[⟨some "4", []⟩, ⟨some "6", []⟩],
    [⟨some "9", []⟩]] [] (fun _ => Except.ok ())).1]
  decide

/-- C5: whenever a sync pass establishes a (truthy) latest position, it
is persisted under the `historyId` key unconditionally — the persisted
state and the sequence of attempted forwards are identical for any two
per-message forwarding oracles, so forwarding failures change nothing —
and every referenced identifier is attempted. -/
theorem c5_persist_unconditional (startHistoryId : String)
    (pages : List (List HistoryRec)) (st : CursorState)
    (fwd fwd' : String → Except String Unit) :
    ((processHistorySince startHistoryId pages st fwd).latestHistoryId ≠ "" →
      lookupKey (processHistorySince startHistoryId pages st fwd).newState
        "historyId" =
        some (processHistorySince startHistoryId pages st fwd).latestHistoryId)
    ∧ (processHistorySince startHistoryId pages st fwd).forwards.map Prod.fst =
      (processHistorySince startHistoryId pages st fwd').forwards.map Prod.fst
    ∧ (processHistorySince startHistoryId pages st fwd).newState =
      (processHistorySince startHistoryId pages st fwd').newState
    ∧ ∀ i ∈ refMsgIds pages,
      i ∈ (processHistorySince startHistoryId pages st fwd).forwards.map
        Prod.fst := by
  refine ⟨?_, ?_, rfl, ?_⟩
  · intro hne
    rw [newState_eq, if_neg hne]
    exact lookupKey_setKey_self st _ _
  · rw [forwards_map_fst, forwards_map_fst]
  · intro i hi
    rw [forwards_map_fst, pendingIds_eq_foldl_add1]
    exact (mem_foldl_add1 _ _ _).mpr (Or.inr hi)

theorem c5_witness :
    lookupKey (processHistorySince "1" [[⟨some "2", [some "m1", some "m2"]⟩]]
        [] c5Fwd).newState "historyId" = some "2"
    ∧ "m2" ∈ (processHistorySince "1"
        [[⟨some "2", [some "m1", some "m2"]⟩]] [] c5Fwd).forwards.map
        Prod.fst := by
  constructor
  · rw [(c5_persist_unconditional "1" [[⟨some "2", [some "m1", some "m2"]⟩]]
      [] c5Fwd c5Fwd).1 (by decide)]
    decide
  · exact (c5_persist_unconditional "1"
      [[⟨some "2", [some "m1", some "m2"]⟩]] [] c5Fwd c5Fwd).2.2.2 "m2"
      (by decide)

/-- C6: within one sync pass, each referenced message identifier is
forwarded exactly once, no matter how many change events across how many
pages reference it. -/
theorem c6_forward_once (startHistoryId : String)
    (pages : List (List HistoryRec)) (st : CursorState)
    (fwd : String → Except String Unit) (id0 : String)
    (hid : id0 ∈ refMsgIds pages) :
    ((processHistorySince startHistoryId pages st fwd).forwards.map
        Prod.fst).count id0 = 1 := by
  rw [forwards_map_fst, pendingIds_eq_foldl_add1]
  exact List.count_eq_one_of_mem (foldl_add1_nodup _ _ List.nodup_nil)
    ((mem_foldl_add1 _ _ _).mpr (Or.inr hid))

theorem c6_witness :
    "m1" ∈ refMsgIds [[⟨some "2", [some "m1"]⟩],
        [⟨some "3", [some "m1", some "m1"]⟩]]
    ∧ ((processHistorySince "1" [[⟨some "2", [some "m1"]⟩],
        [⟨some "3", [some "m1", some "m1"]⟩]] []
        (fun _ => Except.ok ())).forwards.map Prod.fst).count "m1" = 1 :=
  ⟨by decide, c6_forward_once "1" [[⟨some "2", [some "m1"]⟩],
    [⟨some "3", [some "m1", some "m1"]⟩]] [] _ "m1" (by decide)⟩

/-- C9: the cursor store never throws: any failing read (file absent,
unreadable or corrupt) loads as the empty object, a successful read
loads the parsed state, and a save returns normally whatever the write
outcome was. -/
theorem c9_state_store_total :
    (∀ e : String, loadState (Except.error e) = [])
    ∧ (∀ st : CursorState, loadState (Except.ok st) = st)
    ∧ (∀ w : Except String Unit, saveState w = Except.ok ()) :=
  ⟨fun _ => rfl, fun _ => rfl, fun w => by cases w <;> rfl⟩

/-- C10: a sync pass's read-modify-write of the state record only
touches the `historyId` key: every other key keeps the value it had in
the state loaded at save time. -/
theorem c10_cursor_update_frame (startHistoryId : String)
    (pages : List (List HistoryRec)) (st : CursorState)
    (fwd : String → Except String Unit) (k : String)
    (hk : k ≠ "historyId") :
    lookupKey (processHistorySince startHistoryId pages st fwd).newState k =
      lookupKey st k := by
  rw [newState_eq]
  split
  · rfl
  · exact lookupKey_setKey_other st _ _ k hk

theorem c10_witness :
    lookupKey (processHistorySince "1" [[⟨some "2", [some "m1"]⟩]]
        [("historyId", "0"), ("watchTopic", "t")]
        (fun _ => Except.ok ())).newState "watchTopic" = some "t" := by
  rw [c10_cursor_update_frame "1" [[⟨some "2", [some "m1"]⟩]]
    [("historyId", "0"), ("watchTopic", "t")] (fun _ => Except.ok ())
    "watchTopic" (by decide)]
  decide

/-- C2 (counterexample): the chosen start position is NOT the greater of
the persisted cursor and the hint: with cursor "5" and hint "10" the
gateway starts at "5", numerically below the hint. -/
theorem c2_counterexample :
    pushStart [("historyId", "5")] "10" = some "5"
    ∧ posVal "5" < posVal "10" := by
  refine ⟨by decide, by decide⟩

/-- C2 (amended): for a truthy hint, the gateway starts the sync engine
from the persisted cursor whenever one is present and truthy — whatever
the hint's value — and from the hint otherwise; consequently the chosen
start is at least the persisted cursor, but not necessarily at least the
hint. -/
theorem c2_start_prefers_persisted (st : CursorState) (hint : String)
    (hhint : hint ≠ "") :
    (∀ c, lookupKey st "historyId" = some c → c ≠ "" →
      pushStart st hint = some c)
    ∧ ((lookupKey st "historyId" = none ∨
        lookupKey st "historyId" = some "") → pushStart st hint = some hint)
    ∧ (∀ s c, pushStart st hint = some s →
      lookupKey st "historyId" = some c → posVal c ≤ posVal s) := by
  refine ⟨?_, ?_, ?_⟩
  · intro c hc hcne
    simp [pushStart, hhint, hc, hcne]
  · rintro (hc | hc) <;> simp [pushStart, hhint, hc]
  · intro s c hs hc
    simp only [pushStart, if_neg hhint, hc, Option.some.injEq] at hs
    by_cases hcne : c = ""
    · subst hcne
      exact Nat.zero_le _
    · rw [if_neg hcne] at hs
      rw [hs]

theorem c2_witness :
    pushStart [("historyId", "5")] "3" = some "5"
    ∧ pushStart [] "3" = some "3" :=
  ⟨(c2_start_prefers_persisted [("historyId", "5")] "3" (by decide)).1 "5"
      (by decide) (by decide),
    (c2_start_prefers_persisted [] "3" (by decide)).2.1 (Or.inl rfl)⟩

/-! ### Claim theorems for the fan-out forwarder -/

/-- C1 (counterexample): with both the legacy webhook and the agent
relay configured, a failing webhook POST makes `forwardMessageById`
throw to its caller and the agent relay never receives the message —
the claim's "never throws, every remaining sink still receives" is
false. -/
theorem c1_counterexample :
    c1Deps.outboundPostUrl.isSome = true
    ∧ (forwardMessageById c1Deps
        (MsgPart.mk "text/plain" (some "SGk=") []) []).result =
        Except.error "boom"
    ∧ (forwardMessageById c1Deps
        (MsgPart.mk "text/plain" (some "SGk=") []) []).containerPosted =
        none :=
  ⟨rfl, rfl, rfl⟩

/-- C1 (amended): the live broadcast and the agent relay are isolated
sinks — every subscriber write is attempted whatever its outcome, and
broadcast or container failures never make the forward throw — but the
legacy webhook POST is not: when it is configured and fails, that error
is thrown to the caller and the agent relay is skipped for this message
(per-message isolation is restored one level up, in the sync pass's
catch). -/
theorem c1_sink_isolation (deps : ForwardDeps) (payload : MsgPart)
    (headers : List Header) :
    ((forwardMessageById deps payload headers).broadcastWrites.length =
      deps.subscribers.length)
    ∧ (deps.ngrokEndpoint = none ∨ deps.webhookResult = Except.ok () →
      (forwardMessageById deps payload headers).result =
        Except.ok (mkEmailData payload headers)
      ∧ ((forwardMessageById deps payload headers).containerPosted = none ↔
          deps.outboundPostUrl = none))
    ∧ (∀ e, deps.ngrokEndpoint ≠ none →
      deps.webhookResult = Except.error e →
      (forwardMessageById deps payload headers).result = Except.error e
      ∧ (forwardMessageById deps payload headers).containerPosted = none) := by
  rcases hng : deps.ngrokEndpoint with _ | u <;>
    rcases hw : deps.webhookResult with e0 | _ <;>
      rcases ho : deps.outboundPostUrl with _ | o <;>
        simp [forwardMessageById, sseBroadcast, postEmailToContainerAPI,
          hng, hw, ho]

theorem c1_witness :
    (forwardMessageById c1wDeps (MsgPart.mk "text/plain" (some "SGk=") [])
        []).result =
      Except.ok (mkEmailData (MsgPart.mk "text/plain" (some "SGk=") []) [])
    ∧ ¬(forwardMessageById c1wDeps
        (MsgPart.mk "text/plain" (some "SGk=") []) []).containerPosted =
        none := by
  have h := (c1_sink_isolation c1wDeps
    (MsgPart.mk "text/plain" (some "SGk=") []) []).2.1 (Or.inl rfl)
  refine ⟨h.1, fun hc => ?_⟩
  have := h.2.mp hc
  simp [c1wDeps] at this

/-- C8: the forwarded `body` field equals the extracted plain text when
non-empty, else the HTML-stripped text when an HTML body exists, else
the sentinel "(no text found)" — so it is always a defined string — and,
as the claim's instance, a message whose only part is the HTML
`<p>Hi</p>` extracts to `text = ""`, `html = "<p>Hi</p>"` and forwards
`body = "Hi"`. -/
theorem c8_body_contract :
    (∀ t h : String,
      (t ≠ "" → bodyField t h = t)
      ∧ (t = "" → h ≠ "" → bodyField t h = stripHtml h)
      ∧ (t = "" → h = "" → bodyField t h = "(no text found)"))
    ∧ extractEmailBodies hiPayload = ("", "<p>Hi</p>")
    ∧ (mkEmailData hiPayload []).body = "Hi" := by
  refine ⟨fun t h => ⟨?_, ?_, ?_⟩, by decide, by decide⟩
  · intro ht
    simp [bodyField, jsOr, ht]
  · intro ht hh
    simp [bodyField, jsOr, ht, hh]
  · intro ht hh
    simp [bodyField, jsOr, ht, hh]

theorem c8_witness :
    bodyField "plain" "<p>Hi</p>" = "plain"
    ∧ bodyField "" "<p>Hi</p>" = "Hi"
    ∧ bodyField "" "" = "(no text found)" := by
  refine ⟨(c8_body_contract.1 "plain" "<p>Hi</p>").1 (by decide), ?_,
    (c8_body_contract.1 "" "").2.2 rfl rfl⟩
  rw [(c8_body_contract.1 "" "<p>Hi</p>").2.1 rfl (by decide)]
  decide

/-! ### The walk as a fold over the depth-first node list -/

theorem stepText_mk (mt : String) (d : Option String) (ps : List MsgPart)
    (t : String) :
    stepText t (MsgPart.mk mt d ps) =
      if mt = "text/plain" && dataTruthy d && t = "" then
        decodeBase64UrlToUtf8 (d.getD "") else t := by
  simp [stepText, isTextPart, decodedData, MsgPart.mimeType, MsgPart.data,
    Bool.and_assoc]

theorem stepHtml_mk (mt : String) (d : Option String) (ps : List MsgPart)
    (h : String) :
    stepHtml h (MsgPart.mk mt d ps) =
      if mt = "text/html" && dataTruthy d && h = "" then
        decodeBase64UrlToUtf8 (d.getD "") else h := by
  simp [stepHtml, isHtmlPart, decodedData, MsgPart.mimeType, MsgPart.data,
    Bool.and_assoc]

theorem walk_eq_fold : ∀ (p : MsgPart) (s : String × String),
    (walk p s).1 = (dfs p).foldl stepText s.1 ∧
    (walk p s).2 = (dfs p).foldl stepHtml s.2 := by
  refine walk.induct
    (fun p s => (walk p s).1 = (dfs p).foldl stepText s.1 ∧
      (walk p s).2 = (dfs p).foldl stepHtml s.2)
    (fun l s => (walkList l s).1 = (dfsList l).foldl stepText s.1 ∧
      (walkList l s).2 = (dfsList l).foldl stepHtml s.2) ?_ ?_ ?_
  · intro mt d ps s
    intro t h ih
    have hw : walk (MsgPart.mk mt d ps) s = walkList ps (t, h) := rfl
    have hd : dfs (MsgPart.mk mt d ps) = MsgPart.mk mt d ps :: dfsList ps :=
      rfl
    rw [hw, hd, List.foldl_cons, List.foldl_cons, stepText_mk, stepHtml_mk]
    exact ih
  · intro s
    exact ⟨rfl, rfl⟩
  · intro q qs s ih1 ih2
    simp only [walkList, dfsList, List.foldl_append]
    rw [ih2.1, ih2.2, ih1.1, ih1.2]
    exact ⟨rfl, rfl⟩

/-! ### First-wins lemmas on the fold -/

theorem foldl_stepText_ne (l : List MsgPart) (t : String) (h : t ≠ "") :
    l.foldl stepText t = t := by
  induction l with
  | nil => rfl
  | cons p rest ih =>
    rw [List.foldl_cons]
    have : stepText t p = t := by simp [stepText, h]
    rw [this, ih]

theorem stepText_unmoved (p : MsgPart) (h : winsText p = false) :
    stepText "" p = "" := by
  rcases hp : isTextPart p with _ | _
  · simp [stepText, hp]
  · have hd : decodedData p = "" := by
      by_contra hne
      simp [winsText, hp, hne] at h
    simp [stepText, hp, hd]

theorem foldl_stepText_win (l : List MsgPart) (p1 : MsgPart)
    (h : l.find? winsText = some p1) :
    l.foldl stepText "" = decodedData p1 := by
  induction l with
  | nil => simp at h
  | cons p rest ih =>
    rw [List.find?_cons] at h
    rcases hp : winsText p with _ | _
    · rw [hp] at h
      rw [List.foldl_cons, stepText_unmoved p hp]
      exact ih h
    · rw [hp] at h
      simp only [Option.some.injEq] at h
      subst h
      have hp2 : isTextPart p = true ∧ decodedData p ≠ "" := by
        simpa [winsText] using hp
      rw [List.foldl_cons]
      have hstep : stepText "" p = decodedData p := by
        simp [stepText, hp2.1]
      rw [hstep]
      exact foldl_stepText_ne rest _ hp2.2

theorem foldl_stepText_noWin (l : List MsgPart)
    (h : l.find? winsText = none) : l.foldl stepText "" = "" := by
  induction l with
  | nil => rfl
  | cons p rest ih =>
    rw [List.find?_cons] at h
    rcases hp : winsText p with _ | _
    · rw [hp] at h
      rw [List.foldl_cons, stepText_unmoved p hp]
      exact ih h
    · rw [hp] at h
      simp at h

theorem foldl_stepHtml_ne (l : List MsgPart) (t : String) (h : t ≠ "") :
    l.foldl stepHtml t = t := by
  induction l with
  | nil => rfl
  | cons p rest ih =>
    rw [List.foldl_cons]
    have : stepHtml t p = t := by simp [stepHtml, h]
    rw [this, ih]

theorem stepHtml_unmoved (p : MsgPart) (h : winsHtml p = false) :
    stepHtml "" p = "" := by
  rcases hp : isHtmlPart p with _ | _
  · simp [stepHtml, hp]
  · have hd : decodedData p = "" := by
      by_contra hne
      simp [winsHtml, hp, hne] at h
    simp [stepHtml, hp, hd]

theorem foldl_stepHtml_win (l : List MsgPart) (q1 : MsgPart)
    (h : l.find? winsHtml = some q1) :
    l.foldl stepHtml "" = decodedData q1 := by
  induction l with
  | nil => simp at h
  | cons p rest ih =>
    rw [List.find?_cons] at h
    rcases hp : winsHtml p with _ | _
    · rw [hp] at h
      rw [List.foldl_cons, stepHtml_unmoved p hp]
      exact ih h
    · rw [hp] at h
      simp only [Option.some.injEq] at h
      subst h
      have hp2 : isHtmlPart p = true ∧ decodedData p ≠ "" := by
        simpa [winsHtml] using hp
      rw [List.foldl_cons]
      have hstep : stepHtml "" p = decodedData p := by
        simp [stepHtml, hp2.1]
      rw [hstep]
      exact foldl_stepHtml_ne rest _ hp2.2

theorem foldl_stepHtml_noWin (l : List MsgPart)
    (h : l.find? winsHtml = none) : l.foldl stepHtml "" = "" := by
  induction l with
  | nil => rfl
  | cons p rest ih =>
    rw [List.find?_cons] at h
    rcases hp : winsHtml p with _ | _
    · rw [hp] at h
      rw [List.foldl_cons, stepHtml_unmoved p hp]
      exact ih h
    · rw [hp] at h
      simp at h

/-! ### Claim theorems for the content extractor -/

/-- C7 (counterexample): in a multipart tree whose first plain-text part
carries inline data decoding to the empty string (all-padding base64
"===="), the extractor decodes the SECOND plain-text part as well and
returns its content — later parts of the same type are not ignored, and
the result is not the first part's content. -/
theorem c7_counterexample :
    ((dfs (MsgPart.mk "multipart/alternative" none
        [MsgPart.mk "text/plain" (some "====") [],
         MsgPart.mk "text/plain" (some "U2Vjb25k") []])).find?
      isTextPart).map MsgPart.data = some (some "====")
    ∧ decodeBase64UrlToUtf8 "====" = ""
    ∧ (extractEmailBodies (MsgPart.mk "multipart/alternative" none
        [MsgPart.mk "text/plain" (some "====") [],
         MsgPart.mk "text/plain" (some "U2Vjb25k") []])).1 = "Second"
    ∧ decodeBase64UrlToUtf8 "U2Vjb25k" = "Second" :=
  ⟨rfl, by decide, by decide, by decide⟩

/-- C7 (amended): provided the root payload carries no top-level inline
body data, the extractor returns (trimmed) the decoded content of the
FIRST plain-text part in depth-first order whose inline data decodes to
a non-empty string: parts whose data decodes to the empty string do not
win and later parts of the same type are still decoded, while once a
part has won every later part of its type is ignored.  The same holds
for the first such HTML part, and when no part of a type decodes
non-empty that component of the result is empty. -/
theorem c7_first_wins (payload : MsgPart)
    (hroot : dataTruthy payload.data = false) :
    (∀ p1, (dfs payload).find? winsText = some p1 →
      (extractEmailBodies payload).1 = jsTrim (decodedData p1))
    ∧ ((dfs payload).find? winsText = none →
      (extractEmailBodies payload).1 = "")
    ∧ (∀ q1, (dfs payload).find? winsHtml = some q1 →
      (extractEmailBodies payload).2 = jsTrim (decodedData q1))
    ∧ ((dfs payload).find? winsHtml = none →
      (extractEmailBodies payload).2 = "") := by
  have hx : extractEmailBodies payload =
      (jsTrim (walk payload ("", "")).1, jsTrim (walk payload ("", "")).2) := by
    simp [extractEmailBodies, hroot]
  refine ⟨?_, ?_, ?_, ?_⟩
  · intro p1 hfind
    rw [hx]
    show jsTrim (walk payload ("", "")).1 = _
    rw [(walk_eq_fold payload ("", "")).1, foldl_stepText_win _ _ hfind]
  · intro hfind
    rw [hx]
    show jsTrim (walk payload ("", "")).1 = _
    rw [(walk_eq_fold payload ("", "")).1, foldl_stepText_noWin _ hfind]
    rfl
  · intro q1 hfind
    rw [hx]
    show jsTrim (walk payload ("", "")).2 = _
    rw [(walk_eq_fold payload ("", "")).2, foldl_stepHtml_win _ _ hfind]
  · intro hfind
    rw [hx]
    show jsTrim (walk payload ("", "")).2 = _
    rw [(walk_eq_fold payload ("", "")).2, foldl_stepHtml_noWin _ hfind]
    rfl

theorem c7_witness :
    (extractEmailBodies c7wTree).1 = "first"
    ∧ (extractEmailBodies c7wTree).2 = "H1" := by
  have h := c7_first_wins c7wTree (by decide)
  constructor
  · rw [h.1 (MsgPart.mk "text/plain" (some "Zmlyc3Q=") []) rfl]
    decide
  · rw [h.2.2.1 (MsgPart.mk "text/html" (some "SDE=") []) rfl]
    decide

end Intern
